import Mathlib

/-!
Verification of the metric translation, batching and resource-mapping
engine of the opentelemetry-operations-go exporter, against its
natural-language specification.

The Resource Mapper is embedded from
`exporter/collector/googlemanagedprometheus/monitoredresource.go`.
Components whose implementation is not part of the source tree here
(Temporality Tracker, Distribution Encoder, Batching Translator) are
modelled from the specification; their doc comments say so explicitly.
-/

/-! ## Resource Mapper (from monitoredresource.go) -/

/-- Resource attribute set (`pcommon.Map`): an association list from
attribute keys to string values.  Attribute values are modelled as
strings, which is the only value kind the mapper reads
(`val.StringVal()`). -/
abbrev AttrMap := List (String × String)

/-- `pcommon.Map.Get`: returns the value of the key if present. -/
def attrsGet (attrs : AttrMap) (k : String) : Option String :=
  match attrs with
  | [] => none
  | (k2, v) :: rest => if k2 = k then some v else attrsGet rest k

/-- Semantic-convention key `service.name` (semconv v1.8.0). -/
def AttributeServiceName : String := "service.name"

/-- Semantic-convention key `service.namespace`. -/
def AttributeServiceNamespace : String := "service.namespace"

/-- Semantic-convention key `service.instance.id`. -/
def AttributeServiceInstanceID : String := "service.instance.id"

/-- Semantic-convention key `cloud.availability_zone`. -/
def AttributeCloudAvailabilityZone : String := "cloud.availability_zone"

/-- Semantic-convention key `cloud.region`. -/
def AttributeCloudRegion : String := "cloud.region"

/-- Semantic-convention key `k8s.cluster.name`. -/
def AttributeK8SClusterName : String := "k8s.cluster.name"

/-- Semantic-convention key `k8s.namespace.name`. -/
def AttributeK8SNamespaceName : String := "k8s.namespace.name"

/-- GMP override label for the monitored-resource location field. -/
def locationLabel : String := "location"

/-- GMP override label for the monitored-resource cluster field. -/
def clusterLabel : String := "cluster"

/-- GMP override label for the monitored-resource namespace field. -/
def namespaceLabel : String := "namespace"

/-- `getStringOrEmpty` returns the value of the first key found, or the
empty string (variadic `keys ...string` becomes a list). -/
def getStringOrEmpty (attributes : AttrMap) (keys : List String) : String :=
  match keys with
  | [] => ""
  | k :: rest =>
    match attrsGet attributes k with
    | some val => val
    | none => getStringOrEmpty attributes rest

/-- `monitoredrespb.MonitoredResource` restricted to the fixed label set
the mapper emits.  The Go map literal has exactly the five keys
`location`, `cluster`, `namespace`, `job`, `instance`; they are fields
here (`nspace` stands for the `namespace` label, `inst` for
`instance`, both Lean keywords). -/
structure MonitoredResource where
  type : String
  location : String
  cluster : String
  nspace : String
  job : String
  inst : String
  deriving DecidableEq

/-- `MapToPrometheusTarget` from monitoredresource.go. -/
def MapToPrometheusTarget (res : AttrMap) : MonitoredResource :=
  let attrs := res
  let job0 := getStringOrEmpty attrs [AttributeServiceName]
  let serviceNamespace := getStringOrEmpty attrs [AttributeServiceNamespace]
  let job := if serviceNamespace ≠ "" then serviceNamespace ++ "/" ++ job0 else job0
  { type := "prometheus_target"
    location := getStringOrEmpty attrs
      [locationLabel, AttributeCloudAvailabilityZone, AttributeCloudRegion]
    cluster := getStringOrEmpty attrs [clusterLabel, AttributeK8SClusterName]
    nspace := getStringOrEmpty attrs [namespaceLabel, AttributeK8SNamespaceName]
    job := job
    inst := getStringOrEmpty attrs [AttributeServiceInstanceID] }

/-! ## Temporality Tracker (modelled from the spec) -/

/-- Modelled from the spec: a data point of a cumulative (monotonic)
metric stream, carrying a cumulative value, an optional reported start
timestamp, and its own timestamp.  The Temporality Tracker
implementation is not part of the source tree here; this follows spec
section 4.3. -/
structure Point where
  value : Int
  reportedStart : Option Nat
  ts : Nat
  deriving DecidableEq

/-- Modelled from the spec: StreamState of section 3, the per-stream
state owned by the Temporality Tracker - last cumulative value and
current start timestamp. -/
structure StreamState where
  lastValue : Int
  startTs : Nat
  deriving DecidableEq

/-- Modelled from the spec: one observation step of the Temporality
Tracker state machine (section 4.3).  `none` is the `unseen` state: the
first observation records start = the point's reported start, or its
timestamp when none is reported.  On a subsequent observation a value
strictly below the last recorded value is a reset and the start
timestamp becomes the current point's timestamp; otherwise the original
start timestamp is kept.  The last recorded value is updated on every
observation. -/
def observe : Option StreamState → Point → StreamState
  | none, p => { lastValue := p.value, startTs := p.reportedStart.getD p.ts }
  | some st, p =>
    if p.value < st.lastValue then { lastValue := p.value, startTs := p.ts }
    else { lastValue := p.value, startTs := st.startTs }

/-- Modelled from the spec: the sequence of StreamStates the tracker
reports for a sequence of points of one stream, each state produced by
one observation. -/
def observeAll : Option StreamState → List Point → List StreamState
  | _, [] => []
  | st, p :: ps =>
    let st2 := observe st p
    st2 :: observeAll (some st2) ps

/-- Non-decreasing chain of point values starting at value `v`. -/
def ndFrom (v : Int) : List Point → Bool
  | [] => true
  | q :: qs => (decide (v ≤ q.value)) && ndFrom q.value qs

/-- A sequence of points with non-decreasing values. -/
def valuesND : List Point → Bool
  | [] => true
  | p :: ps => ndFrom p.value ps

/-! ## Distribution Encoder (modelled from the spec) -/

/-- Modelled from the spec: the point-scoped error taxonomy member
`MalformedHistogram` of section 7 (bucket/count length mismatch).  The
Distribution Encoder implementation is not part of the source tree
here; this follows spec sections 4.2 and 7. -/
inductive TranslationError where
  | MalformedHistogram
  deriving DecidableEq

/-- Modelled from the spec: the backend distribution value - bucket
options (explicit boundaries) and bucket counts.  Boundaries are
modelled as integers; only their list structure and order matter to
the claims. -/
structure Distribution where
  bucketOptions : List Int
  bucketCounts : List Nat
  deriving DecidableEq

/-- Modelled from the spec: the Distribution Encoder of section 4.2.
Given ordered bucket boundaries and per-bucket counts it produces a
backend distribution value with boundaries and counts unchanged in
order, and fails with `MalformedHistogram` when counts and boundaries
are inconsistent in length (valid means counts = boundaries + 1). -/
def encodeDistribution (boundaries : List Int) (counts : List Nat) :
    Except TranslationError Distribution :=
  if counts.length = boundaries.length + 1 then
    Except.ok { bucketOptions := boundaries, bucketCounts := counts }
  else
    Except.error TranslationError.MalformedHistogram

/-- Reading the boundary and count lists back out of a backend
distribution value. -/
def decodeDistribution (d : Distribution) : List Int × List Nat :=
  (d.bucketOptions, d.bucketCounts)

/-- A histogram data point: its bucket boundaries and bucket counts. -/
structure HistPoint where
  boundaries : List Int
  counts : List Nat
  deriving DecidableEq

/-- Whether a histogram point has consistent lengths. -/
def wellFormedHist (p : HistPoint) : Bool :=
  p.counts.length == p.boundaries.length + 1

/-- Modelled from the spec: translation of the data points of one
metric (sections 4.5 and 7): each point is encoded independently;
a failed point contributes its error to the aggregate error list and
the remaining points still translate - no error aborts the batch. -/
def translateHistPoints : List HistPoint → List Distribution × List TranslationError
  | [] => ([], [])
  | p :: ps =>
    let rest := translateHistPoints ps
    match encodeDistribution p.boundaries p.counts with
    | Except.ok d => (d :: rest.1, rest.2)
    | Except.error e => (rest.1, e :: rest.2)

/-! ## Batching Translator (modelled from the spec) -/

/-- Modelled from the spec: the origin of a converted point - ordinary
metric write or self-observability metric write (sections 4.5 and
4.6). -/
inductive PointOrigin where
  | ordinary
  | selfObs
  deriving DecidableEq

/-- Modelled from the spec: a converted time-series point accumulated by
the Batching Translator, tagged with its origin stream and the metric
stream it came from. -/
structure ConvertedPoint where
  origin : PointOrigin
  streamId : Nat
  deriving DecidableEq

/-- Modelled from the spec: the batch accumulation loop of section 4.5
step 3 - append each converted point to the current batch; when the
batch reaches the configured maximum count, seal it and start a new
batch.  `cur` is the current batch, held in reverse. -/
def chunkBatches {α : Type} (maxCount : Nat) : List α → List α → List (List α)
  | [], cur => if cur.isEmpty then [] else [cur.reverse]
  | p :: ps, cur =>
    let cur2 := p :: cur
    if cur2.length = maxCount then
      cur2.reverse :: chunkBatches maxCount ps []
    else
      chunkBatches maxCount ps cur2

/-- Modelled from the spec: all sealed batches of one export cycle for
one request stream. -/
def sealBatches {α : Type} (maxCount : Nat) (points : List α) : List (List α) :=
  chunkBatches maxCount points []

/-- Whether a converted point belongs to the ordinary request stream. -/
def isOrdinary (p : ConvertedPoint) : Bool :=
  match p.origin with
  | PointOrigin.ordinary => true
  | PointOrigin.selfObs => false

/-- Modelled from the spec: the two request streams of section 4.5
step 4 - sealed batches of ordinary metric writes and sealed batches of
self-observability metric writes, never intermixed. -/
structure TranslatorOutput where
  ordinaryBatches : List (List ConvertedPoint)
  selfObsBatches : List (List ConvertedPoint)

/-- Modelled from the spec: partitioning the converted points of one
export cycle into the two request streams and sealing each stream into
size-bounded batches. -/
def partitionOutput (maxCount : Nat) (points : List ConvertedPoint) :
    TranslatorOutput :=
  { ordinaryBatches := sealBatches maxCount (points.filter isOrdinary)
    selfObsBatches := sealBatches maxCount (points.filter (fun p => !(isOrdinary p))) }

/-! ## Deterministic batch ordering (comparator from normalizeSelfObs) -/

/-- A time-series entry of a write-request batch: its metric type and
its attribute (label) set. -/
structure TimeSeries where
  metricType : String
  labels : List (String × String)
  deriving DecidableEq

/-- Deterministic serialization of a label set (the role
`fmt.Sprint(metric.Labels)` plays in the source comparator). -/
def serializeLabels (ls : List (String × String)) : String :=
  String.join (ls.map (fun kv => kv.1 ++ ":" ++ kv.2 ++ " "))

/-- The ordering the sort in `normalizeSelfObs` establishes: by metric
type first, and among equal metric types by the serialized attribute
set (`sort.Slice` with less = type < type, or types equal and
serialized labels < serialized labels, leaves the list sorted by this
reflexive relation). -/
def tsLe (a b : TimeSeries) : Prop :=
  a.metricType < b.metricType
  ∨ (a.metricType = b.metricType
      ∧ serializeLabels a.labels ≤ serializeLabels b.labels)

instance : DecidableRel tsLe := fun a b => by
  unfold tsLe
  exact instDecidableOr

instance : IsTotal TimeSeries tsLe := by
  constructor
  intro a b
  rcases lt_trichotomy a.metricType b.metricType with h | h | h
  · exact Or.inl (Or.inl h)
  · rcases le_total (serializeLabels a.labels) (serializeLabels b.labels) with
      h2 | h2
    · exact Or.inl (Or.inr ⟨h, h2⟩)
    · exact Or.inr (Or.inr ⟨h.symm, h2⟩)
  · exact Or.inr (Or.inl h)

instance : IsTrans TimeSeries tsLe := by
  constructor
  intro a b c hab hbc
  rcases hab with hab | ⟨hab, hab2⟩
  · rcases hbc with hbc | ⟨hbc, _⟩
    · exact Or.inl (lt_trans hab hbc)
    · exact Or.inl (hbc ▸ hab)
  · rcases hbc with hbc | ⟨hbc, hbc2⟩
    · exact Or.inl (hab ▸ hbc)
    · exact Or.inr ⟨hab.trans hbc, le_trans hab2 hbc2⟩

/-- Modelled from the spec: the deterministic ordering a sealed
write-request batch exposes to the transport layer (section 6), using
the comparator of `normalizeSelfObs`: sort the time-series entries by
metric type, then by serialized attribute set. -/
def sortTimeSeries (tss : List TimeSeries) : List TimeSeries :=
  List.insertionSort tsLe tss

/-! ## Helper lemmas -/

/-- Once tracked, the start timestamp survives every non-resetting
observation chain. -/
theorem observeAll_startTs_of_ndFrom :
    ∀ (ps : List Point) (st : StreamState), ndFrom st.lastValue ps = true →
      ∀ s ∈ observeAll (some st) ps, s.startTs = st.startTs := by
  intro ps
  induction ps with
  | nil => intro st _ s hs; simp [observeAll] at hs
  | cons q qs ih =>
    intro st hnd s hs
    simp only [ndFrom, Bool.and_eq_true, decide_eq_true_eq] at hnd
    have hobs : observe (some st) q =
        { lastValue := q.value, startTs := st.startTs } := by
      simp only [observe, if_neg (not_lt.mpr hnd.1)]
    simp only [observeAll, hobs, List.mem_cons] at hs
    rcases hs with rfl | hs
    · rfl
    · exact ih { lastValue := q.value, startTs := st.startTs } hnd.2 s hs

/-- Every batch produced from a current batch still below the limit is
within the limit. -/
theorem chunkBatches_length_le {α : Type} (maxCount : Nat) :
    ∀ (ps cur : List α), cur.length < maxCount →
      ∀ b ∈ chunkBatches maxCount ps cur, b.length ≤ maxCount := by
  intro ps
  induction ps with
  | nil =>
    intro cur hcur b hb
    simp only [chunkBatches] at hb
    rcases hc : cur.isEmpty with _ | _
    · rw [hc] at hb
      simp only [Bool.false_eq_true, if_false, List.mem_singleton] at hb
      subst hb
      simpa using le_of_lt hcur
    · rw [hc] at hb
      simp at hb
  | cons p ps ih =>
    intro cur hcur b hb
    simp only [chunkBatches] at hb
    by_cases hfull : (p :: cur).length = maxCount
    · rw [if_pos hfull] at hb
      rcases List.mem_cons.mp hb with rfl | hb
      · simpa using le_of_eq hfull
      · have hpos : 0 < maxCount := Nat.pos_of_ne_zero (by
          intro h0; rw [h0] at hcur; exact Nat.not_lt_zero _ hcur)
        exact ih [] (by simpa using hpos) b hb
    · rw [if_neg hfull] at hb
      have hlt : (p :: cur).length < maxCount :=
        lt_of_le_of_ne (by simpa using hcur) hfull
      exact ih (p :: cur) hlt b hb

/-- A member of a sealed batch came from the accumulated input. -/
theorem mem_of_mem_chunkBatches {α : Type} (maxCount : Nat) :
    ∀ (ps cur b : List α), b ∈ chunkBatches maxCount ps cur →
      ∀ x ∈ b, x ∈ ps ∨ x ∈ cur := by
  intro ps
  induction ps with
  | nil =>
    intro cur b hb x hx
    simp only [chunkBatches] at hb
    rcases hc : cur.isEmpty with _ | _
    · rw [hc] at hb
      simp only [Bool.false_eq_true, if_false, List.mem_singleton] at hb
      subst hb
      exact Or.inr (List.mem_reverse.mp hx)
    · rw [hc] at hb
      simp at hb
  | cons p ps ih =>
    intro cur b hb x hx
    simp only [chunkBatches] at hb
    by_cases hfull : (p :: cur).length = maxCount
    · rw [if_pos hfull] at hb
      rcases List.mem_cons.mp hb with rfl | hb
      · rcases List.mem_cons.mp (List.mem_reverse.mp hx) with rfl | hx2
        · exact Or.inl (List.mem_cons_self _ _)
        · exact Or.inr hx2
      · rcases ih [] b hb x hx with h | h
        · exact Or.inl (List.mem_cons_of_mem _ h)
        · simp at h
    · rw [if_neg hfull] at hb
      rcases ih (p :: cur) b hb x hx with h | h
      · exact Or.inl (List.mem_cons_of_mem _ h)
      · rcases List.mem_cons.mp h with rfl | h2
        · exact Or.inl (List.mem_cons_self _ _)
        · exact Or.inr h2

/-! ## Claim theorems -/

/-- C4: every monitored-resource label is resolved by a total precedence
rule: the override label wins if present, otherwise the first present
semantic-convention key in order, otherwise the empty string; and a
resource carrying only `cloud.region=us-central1` maps to the
monitored-resource label `location=us-central1`. -/
theorem C4_label_precedence_total (attrs : AttrMap) :
    ((MapToPrometheusTarget attrs).location =
      match attrsGet attrs locationLabel with
      | some v => v
      | none =>
        match attrsGet attrs AttributeCloudAvailabilityZone with
        | some v => v
        | none =>
          match attrsGet attrs AttributeCloudRegion with
          | some v => v
          | none => "")
    ∧ ((MapToPrometheusTarget attrs).cluster =
      match attrsGet attrs clusterLabel with
      | some v => v
      | none =>
        match attrsGet attrs AttributeK8SClusterName with
        | some v => v
        | none => "")
    ∧ ((MapToPrometheusTarget attrs).nspace =
      match attrsGet attrs namespaceLabel with
      | some v => v
      | none =>
        match attrsGet attrs AttributeK8SNamespaceName with
        | some v => v
        | none => "")
    ∧ (MapToPrometheusTarget [(AttributeCloudRegion, "us-central1")]).location
        = "us-central1" := by
  refine ⟨?_, ?_, ?_, by decide⟩
  · show getStringOrEmpty attrs
      [locationLabel, AttributeCloudAvailabilityZone, AttributeCloudRegion] = _
    simp only [getStringOrEmpty]
  · show getStringOrEmpty attrs [clusterLabel, AttributeK8SClusterName] = _
    simp only [getStringOrEmpty]
  · show getStringOrEmpty attrs [namespaceLabel, AttributeK8SNamespaceName] = _
    simp only [getStringOrEmpty]

/-- C6: the `job` label is `serviceNamespace ++ "/" ++ serviceName` when
the service namespace attribute is present and non-empty, and the
service name alone when it is absent or empty. -/
theorem C6_job_namespace_concat (attrs : AttrMap) :
    (∀ v, attrsGet attrs AttributeServiceNamespace = some v → v ≠ "" →
      (MapToPrometheusTarget attrs).job =
        v ++ "/" ++ getStringOrEmpty attrs [AttributeServiceName])
    ∧ ((attrsGet attrs AttributeServiceNamespace = none
          ∨ attrsGet attrs AttributeServiceNamespace = some "") →
      (MapToPrometheusTarget attrs).job =
        getStringOrEmpty attrs [AttributeServiceName]) := by
  constructor
  · intro v hv hne
    show (if getStringOrEmpty attrs [AttributeServiceNamespace] ≠ "" then _ else _) = _
    simp only [getStringOrEmpty, hv]
    rw [if_pos hne]
  · intro h
    show (if getStringOrEmpty attrs [AttributeServiceNamespace] ≠ "" then _ else _) = _
    rcases h with h | h <;> simp only [getStringOrEmpty, h] <;> simp

/-- Witness for C6 at a concrete attribute set with a non-empty service
namespace. -/
theorem C6_job_namespace_concat_witness :
    (MapToPrometheusTarget
        [(AttributeServiceNamespace, "ns"), (AttributeServiceName, "svc")]).job
      = "ns" ++ "/" ++ getStringOrEmpty
          [(AttributeServiceNamespace, "ns"), (AttributeServiceName, "svc")]
          [AttributeServiceName] :=
  (C6_job_namespace_concat
      [(AttributeServiceNamespace, "ns"), (AttributeServiceName, "svc")]).1
    "ns" (by decide) (by decide)

/-- C10: an override label that is present with the empty string as its
value wins over any later semantic-convention key: the corresponding
monitored-resource label is empty, because `getStringOrEmpty` returns
the value of the first key that exists, not the first non-empty value. -/
theorem C10_empty_override_wins (attrs : AttrMap) :
    (attrsGet attrs locationLabel = some "" →
      (MapToPrometheusTarget attrs).location = "")
    ∧ (attrsGet attrs clusterLabel = some "" →
      (MapToPrometheusTarget attrs).cluster = "")
    ∧ (attrsGet attrs namespaceLabel = some "" →
      (MapToPrometheusTarget attrs).nspace = "")
    ∧ (∀ (k : String) (ks : List String) (v : String),
        attrsGet attrs k = some v → getStringOrEmpty attrs (k :: ks) = v) := by
  have first (k : String) (ks : List String) (v : String)
      (h : attrsGet attrs k = some v) : getStringOrEmpty attrs (k :: ks) = v := by
    simp only [getStringOrEmpty, h]
  refine ⟨fun h => first _ _ _ h, fun h => first _ _ _ h,
    fun h => first _ _ _ h, first⟩

/-- Witness for C10: `location` present but empty beats a non-empty
`cloud.region`. -/
theorem C10_empty_override_wins_witness :
    (MapToPrometheusTarget
        [(locationLabel, ""), (AttributeCloudRegion, "us-central1")]).location
      = "" :=
  (C10_empty_override_wins
      [(locationLabel, ""), (AttributeCloudRegion, "us-central1")]).1 (by decide)

/-- C1: on a cumulative stream whose observed values never decrease, the
start timestamp reported for every point of the sequence equals the one
fixed at the first observation - it never changes once the stream is
tracked. -/
theorem C1_start_timestamp_stable (p : Point) (ps : List Point)
    (h : valuesND (p :: ps) = true) :
    ∀ s ∈ observeAll none (p :: ps), s.startTs = (observe none p).startTs := by
  intro s hs
  simp only [observeAll, List.mem_cons] at hs
  rcases hs with rfl | hs
  · rfl
  · have hlv : (observe none p).lastValue = p.value := rfl
    have hnd : ndFrom (observe none p).lastValue ps = true := by
      rw [hlv]; exact h
    exact observeAll_startTs_of_ndFrom ps (observe none p) hnd s hs

/-- Witness for C1 at the concrete non-decreasing sequence
(1, 2, 2) with reported start 50. -/
theorem C1_start_timestamp_stable_witness :
    valuesND [⟨1, some 50, 51⟩, ⟨2, some 50, 52⟩, ⟨2, some 50, 53⟩] = true
    ∧ ∀ s ∈ observeAll none
        [⟨1, some 50, 51⟩, ⟨2, some 50, 52⟩, ⟨2, some 50, 53⟩],
        s.startTs = (observe none ⟨1, some 50, 51⟩).startTs :=
  ⟨by decide,
    C1_start_timestamp_stable ⟨1, some 50, 51⟩
      [⟨2, some 50, 52⟩, ⟨2, some 50, 53⟩] (by decide)⟩

/-- C2: a value strictly below the last recorded value is a reset and the
start timestamp becomes the resetting point's own timestamp; the
concrete cumulative sequence 5, 3, 7 yields exactly two distinct start
timestamps, the second being the timestamp of the 3 observation. -/
theorem C2_reset_start_timestamp (st : StreamState) (p : Point)
    (hreset : p.value < st.lastValue) :
    (observe (some st) p).startTs = p.ts
    ∧ ((observeAll none
          [⟨5, some 100, 101⟩, ⟨3, some 100, 102⟩, ⟨7, some 100, 103⟩]).map
        (fun s => s.startTs)).dedup = [100, 102] := by
  constructor
  · simp only [observe, if_pos hreset]
  · decide

/-- Witness for C2 at the concrete reset observation 3 after 5. -/
theorem C2_reset_start_timestamp_witness :
    (observe (some ⟨5, 100⟩) ⟨3, none, 102⟩).startTs = 102 :=
  (C2_reset_start_timestamp ⟨5, 100⟩ ⟨3, none, 102⟩ (by decide)).1

/-- C5: a histogram point whose count list length is inconsistent with
its boundary list length yields a `MalformedHistogram` error scoped to
that point only: the error appears in the aggregate error list, every
well-formed point of the same metric still produces its distribution,
and the number of produced distributions is exactly the number of
well-formed points - the batch is not failed. -/
theorem C5_malformed_histogram_scoped (ps : List HistPoint) (p : HistPoint)
    (hp : p ∈ ps) (hbad : p.counts.length ≠ p.boundaries.length + 1) :
    TranslationError.MalformedHistogram ∈ (translateHistPoints ps).2
    ∧ (∀ q ∈ ps, q.counts.length = q.boundaries.length + 1 →
        ({ bucketOptions := q.boundaries, bucketCounts := q.counts } :
          Distribution) ∈ (translateHistPoints ps).1)
    ∧ (translateHistPoints ps).1.length = (ps.filter wellFormedHist).length := by
  refine ⟨?_, ?_, ?_⟩
  · induction ps with
    | nil => cases hp
    | cons q qs ih =>
      simp only [List.mem_cons] at hp
      simp only [translateHistPoints]
      rcases hp with rfl | hp
      · rw [encodeDistribution, if_neg hbad]
        exact List.mem_cons_self _ _
      · cases hq : encodeDistribution q.boundaries q.counts with
        | ok d => exact ih hp
        | error e =>
          have he : e = TranslationError.MalformedHistogram := by
            cases e; rfl
          subst he
          exact List.mem_cons_of_mem _ (ih hp)
  · clear hp hbad
    induction ps with
    | nil => intro q hq; cases hq
    | cons r rs ih =>
      intro q hq hwf
      simp only [List.mem_cons] at hq
      simp only [translateHistPoints]
      rcases hq with rfl | hq
      · rw [encodeDistribution, if_pos hwf]
        exact List.mem_cons_self _ _
      · cases hr : encodeDistribution r.boundaries r.counts with
        | ok d => exact List.mem_cons_of_mem _ (ih q hq hwf)
        | error e => exact ih q hq hwf
  · clear hp hbad
    induction ps with
    | nil => rfl
    | cons r rs ih =>
      simp only [translateHistPoints, List.filter]
      cases hwf : wellFormedHist r with
      | true =>
        have : r.counts.length = r.boundaries.length + 1 := by
          simpa [wellFormedHist] using hwf
        rw [encodeDistribution, if_pos this]
        simpa using ih
      | false =>
        have : ¬ r.counts.length = r.boundaries.length + 1 := by
          simpa [wellFormedHist] using hwf
        rw [encodeDistribution, if_neg this]
        simpa using ih

/-- Witness for C5: a metric with a good point, a point with 5 bucket
boundaries but 4 bucket counts, and another good point: the bad point
yields `MalformedHistogram` and exactly the two good points translate. -/
theorem C5_malformed_histogram_scoped_witness :
    TranslationError.MalformedHistogram ∈
      (translateHistPoints
        [⟨[0, 10], [1, 2, 3]⟩, ⟨[0, 1, 2, 3, 4], [1, 1, 1, 1]⟩,
          ⟨[5], [2, 2]⟩]).2
    ∧ (translateHistPoints
        [⟨[0, 10], [1, 2, 3]⟩, ⟨[0, 1, 2, 3, 4], [1, 1, 1, 1]⟩,
          ⟨[5], [2, 2]⟩]).1.length = 2 :=
  ⟨(C5_malformed_histogram_scoped
      [⟨[0, 10], [1, 2, 3]⟩, ⟨[0, 1, 2, 3, 4], [1, 1, 1, 1]⟩, ⟨[5], [2, 2]⟩]
      ⟨[0, 1, 2, 3, 4], [1, 1, 1, 1]⟩ (by decide) (by decide)).1,
    ((C5_malformed_histogram_scoped
      [⟨[0, 10], [1, 2, 3]⟩, ⟨[0, 1, 2, 3, 4], [1, 1, 1, 1]⟩, ⟨[5], [2, 2]⟩]
      ⟨[0, 1, 2, 3, 4], [1, 1, 1, 1]⟩ (by decide) (by decide)).2.2).trans
      (by decide)⟩

/-- C7 as claimed is false on its concrete instance: three boundaries
with three counts violate the validity contract counts = boundaries + 1
of the very same spec section, so the encoder rejects the pair
([0, 10, 20], [1, 2, 1]) with `MalformedHistogram` instead of
round-tripping it. -/
theorem C7_counterexample_invalid_instance :
    encodeDistribution [0, 10, 20] [1, 2, 1] =
      Except.error TranslationError.MalformedHistogram := rfl

/-- C7 (amended): encoding a valid histogram (counts = boundaries + 1)
and decoding the resulting distribution value yields the identical
boundary and count lists in order; in particular for boundaries
[0, 10, 20] and the valid count list [1, 2, 1, 0]. -/
theorem C7_distribution_round_trip (boundaries : List Int) (counts : List Nat)
    (h : counts.length = boundaries.length + 1) :
    encodeDistribution boundaries counts =
      Except.ok { bucketOptions := boundaries, bucketCounts := counts }
    ∧ decodeDistribution { bucketOptions := boundaries, bucketCounts := counts }
        = (boundaries, counts)
    ∧ encodeDistribution [0, 10, 20] [1, 2, 1, 0] =
        Except.ok { bucketOptions := [0, 10, 20], bucketCounts := [1, 2, 1, 0] }
    ∧ decodeDistribution
          { bucketOptions := [0, 10, 20], bucketCounts := [1, 2, 1, 0] }
        = ([0, 10, 20], [1, 2, 1, 0]) := by
  exact ⟨by rw [encodeDistribution, if_pos h], rfl, rfl, rfl⟩

/-- Witness for C7 at boundaries [0, 10, 20] and counts [1, 2, 1, 0]. -/
theorem C7_distribution_round_trip_witness :
    encodeDistribution [0, 10, 20] [1, 2, 1, 0] =
      Except.ok { bucketOptions := [0, 10, 20], bucketCounts := [1, 2, 1, 0] }
    ∧ decodeDistribution
          { bucketOptions := [0, 10, 20], bucketCounts := [1, 2, 1, 0] }
        = ([0, 10, 20], [1, 2, 1, 0]) :=
  ⟨(C7_distribution_round_trip [0, 10, 20] [1, 2, 1, 0] (by decide)).1,
    (C7_distribution_round_trip [0, 10, 20] [1, 2, 1, 0] (by decide)).2.1⟩

set_option maxRecDepth 40000 in
/-- C3: with a positive configured maximum, every sealed batch contains
at most that many time-series entries; and 250 distinct metric streams
in one export cycle with a batch limit of 200 produce exactly 2 sealed
ordinary batches, of 200 and 50 entries. -/
theorem C3_batch_size_bound :
    (∀ (α : Type) (maxCount : Nat) (points : List α), 0 < maxCount →
      ∀ b ∈ sealBatches maxCount points, b.length ≤ maxCount)
    ∧ ((sealBatches 200
          ((List.range 250).map
            (fun i => ({ origin := PointOrigin.ordinary, streamId := i } :
              ConvertedPoint)))).map List.length) = [200, 50] := by
  constructor
  · intro α maxCount points hpos b hb
    exact chunkBatches_length_le maxCount points [] (by simpa using hpos) b hb
  · decide

/-- Witness for C3 with limit 200 over the 250 distinct streams of the
scenario. -/
theorem C3_batch_size_bound_witness :
    ∀ b ∈ sealBatches 200
        ((List.range 250).map
          (fun i => ({ origin := PointOrigin.ordinary, streamId := i } :
            ConvertedPoint))), b.length ≤ 200 :=
  C3_batch_size_bound.1 ConvertedPoint 200
    ((List.range 250).map
      (fun i => ({ origin := PointOrigin.ordinary, streamId := i } :
        ConvertedPoint))) (by decide)

/-- C8: the translator output is partitioned into disjoint ordinary and
self-observability request streams: every point of every sealed
ordinary batch is an ordinary metric write, every point of every sealed
self-observability batch is a self-observability metric write, and no
sealed batch of either stream contains entries of both origins. -/
theorem C8_streams_never_intermixed (maxCount : Nat)
    (points : List ConvertedPoint) :
    (∀ b ∈ (partitionOutput maxCount points).ordinaryBatches,
      ∀ p ∈ b, p.origin = PointOrigin.ordinary)
    ∧ (∀ b ∈ (partitionOutput maxCount points).selfObsBatches,
      ∀ p ∈ b, p.origin = PointOrigin.selfObs)
    ∧ (∀ b, b ∈ (partitionOutput maxCount points).ordinaryBatches
          ∨ b ∈ (partitionOutput maxCount points).selfObsBatches →
        ¬ ((∃ p ∈ b, p.origin = PointOrigin.ordinary)
            ∧ (∃ p ∈ b, p.origin = PointOrigin.selfObs))) := by
  have hord : ∀ b ∈ (partitionOutput maxCount points).ordinaryBatches,
      ∀ p ∈ b, p.origin = PointOrigin.ordinary := by
    intro b hb p hp
    have hmem : p ∈ points.filter isOrdinary := by
      rcases mem_of_mem_chunkBatches maxCount (points.filter isOrdinary) [] b hb
          p hp with h | h
      · exact h
      · simp at h
    have := (List.mem_filter.mp hmem).2
    cases horig : p.origin
    · rfl
    · rw [isOrdinary, horig] at this
      cases this
  have hself : ∀ b ∈ (partitionOutput maxCount points).selfObsBatches,
      ∀ p ∈ b, p.origin = PointOrigin.selfObs := by
    intro b hb p hp
    have hmem : p ∈ points.filter (fun p => !(isOrdinary p)) := by
      rcases mem_of_mem_chunkBatches maxCount
          (points.filter (fun p => !(isOrdinary p))) [] b hb p hp with h | h
      · exact h
      · simp at h
    have := (List.mem_filter.mp hmem).2
    cases horig : p.origin
    · rw [isOrdinary, horig] at this
      cases this
    · rfl
  refine ⟨hord, hself, ?_⟩
  rintro b hb ⟨⟨p, hp, hpo⟩, ⟨q, hq, hqo⟩⟩
  rcases hb with hb | hb
  · have := hord b hb q hq
    rw [this] at hqo
    cases hqo
  · have := hself b hb p hp
    rw [this] at hpo
    cases hpo

/-- Witness for C8 at a one-point ordinary export cycle. -/
theorem C8_streams_never_intermixed_witness :
    ({ origin := PointOrigin.ordinary, streamId := 0 } :
      ConvertedPoint).origin = PointOrigin.ordinary :=
  (C8_streams_never_intermixed 1
      [{ origin := PointOrigin.ordinary, streamId := 0 }]).1
    [{ origin := PointOrigin.ordinary, streamId := 0 }] (by decide)
    { origin := PointOrigin.ordinary, streamId := 0 } (by decide)

/-- C9: the time-series entries of a sealed batch are ordered
deterministically - the sorted batch holds exactly the entries of the
input, arranged so that each entry precedes the next by metric type,
entries of equal metric type ordered by their serialized attribute
set. -/
theorem C9_batch_entries_sorted (tss : List TimeSeries) :
    List.Sorted
      (fun a b => a.metricType < b.metricType
        ∨ (a.metricType = b.metricType
            ∧ serializeLabels a.labels ≤ serializeLabels b.labels))
      (sortTimeSeries tss)
    ∧ List.Perm (sortTimeSeries tss) tss :=
  ⟨List.sorted_insertionSort tsLe tss, List.perm_insertionSort tsLe tss⟩
